import Mathlib

/-!
Verification development for the VynixC bot API (src/vynixc_bot.js).

The file shallowly embeds the two classes of the source — `BotManager`
(identity store) and `CommandProxy` (command registry, dispatch, console
execution, persistence) — as pure Lean functions over explicit state.
JavaScript `Map` objects are modelled as association lists in insertion
order; `Map.get`/`Map.set`/`Map.delete` become `mapLookup`/`mapSet`/
`mapDelete`.  Thrown exceptions become `Except`-style error results that
also return the (unchanged) state at the point of the throw, mirroring the
statement order of the source.  External effects (the VynixC runtime hook,
webhook transport, the system clock, crypto token generation) are passed
in as explicit data or oracle parameters.
-/

set_option autoImplicit false

namespace VynixC

universe u

/-! ### Association-list model of JavaScript `Map` -/

/-- `Map.get`: value of the first entry with the given key. -/
def mapLookup {α : Type u} : List (String × α) → String → Option α
  | [], _ => none
  | e :: rest, k => if e.1 = k then some e.2 else mapLookup rest k

/-- Rewrite the value of every entry whose key matches (a JS `Map` has at
most one such entry). -/
def mapAdjust {α : Type u} (l : List (String × α)) (k : String) (f : α → α) :
    List (String × α) :=
  l.map (fun e => if e.1 = k then (e.1, f e.2) else e)

/-- `Map.set`: update in place when the key is present, append otherwise. -/
def mapSet {α : Type u} (l : List (String × α)) (k : String) (v : α) :
    List (String × α) :=
  if (mapLookup l k).isSome then mapAdjust l k (fun _ => v) else l ++ [(k, v)]

/-- `Map.delete`: drop the entry with the given key. -/
def mapDelete {α : Type u} : List (String × α) → String → List (String × α)
  | [], _ => []
  | e :: rest, k => if e.1 = k then mapDelete rest k else e :: mapDelete rest k

theorem mapLookup_eq_some_mem {α : Type u} {l : List (String × α)} {k : String}
    {v : α} (h : mapLookup l k = some v) : (k, v) ∈ l := by
  induction l with
  | nil => simp [mapLookup] at h
  | cons e rest ih =>
    rw [mapLookup] at h
    by_cases hk : e.1 = k
    · rw [if_pos hk] at h
      injection h with h'
      have he : (k, v) = e := by rw [← hk, ← h']
      exact he ▸ List.mem_cons_self e rest
    · rw [if_neg hk] at h
      exact List.mem_cons_of_mem e (ih h)

theorem mapLookup_eq_none_not_mem {α : Type u} {l : List (String × α)}
    {k : String} (h : mapLookup l k = none) : ∀ v : α, (k, v) ∉ l := by
  induction l with
  | nil => intro v hv; simp at hv
  | cons e rest ih =>
    rw [mapLookup] at h
    by_cases hk : e.1 = k
    · rw [if_pos hk] at h; cases h
    · rw [if_neg hk] at h
      intro v hv
      rcases List.mem_cons.mp hv with hv | hv
      · exact hk (congrArg Prod.fst hv).symm
      · exact ih h v hv

theorem mem_mapLookup_of_nodup {α : Type u} {l : List (String × α)}
    {k : String} {v : α} (hn : (l.map Prod.fst).Nodup) (hm : (k, v) ∈ l) :
    mapLookup l k = some v := by
  induction l with
  | nil => simp at hm
  | cons e rest ih =>
    rw [List.map_cons, List.nodup_cons] at hn
    rcases List.mem_cons.mp hm with hm | hm
    · rw [mapLookup, ← hm]
      simp
    · rw [mapLookup]
      by_cases hk : e.1 = k
      · exact absurd (hk ▸ List.mem_map_of_mem Prod.fst hm) hn.1
      · rw [if_neg hk]
        exact ih hn.2 hm

theorem mapLookup_append_new {α : Type u} {l : List (String × α)} {k : String}
    (h : mapLookup l k = none) (v : α) :
    mapLookup (l ++ [(k, v)]) k = some v := by
  induction l with
  | nil => simp [mapLookup]
  | cons e rest ih =>
    rw [mapLookup] at h
    by_cases hk : e.1 = k
    · rw [if_pos hk] at h; cases h
    · rw [if_neg hk] at h
      rw [List.cons_append, mapLookup, if_neg hk]
      exact ih h

theorem mapLookup_append_other {α : Type u} (l : List (String × α))
    {k k' : String} (h : k' ≠ k) (v : α) :
    mapLookup (l ++ [(k, v)]) k' = mapLookup l k' := by
  induction l with
  | nil => simp [mapLookup, Ne.symm h]
  | cons e rest ih =>
    rw [List.cons_append, mapLookup, mapLookup]
    by_cases hk : e.1 = k'
    · rw [if_pos hk, if_pos hk]
    · rw [if_neg hk, if_neg hk]
      exact ih

theorem mapLookup_adjust_self {α : Type u} (l : List (String × α)) (k : String)
    (f : α → α) :
    mapLookup (mapAdjust l k f) k = (mapLookup l k).map f := by
  induction l with
  | nil => simp [mapLookup, mapAdjust]
  | cons e rest ih =>
    rw [mapAdjust, List.map_cons]
    by_cases hk : e.1 = k
    · rw [if_pos hk, mapLookup, mapLookup, if_pos hk, if_pos hk]
      simp
    · rw [if_neg hk, mapLookup, mapLookup, if_neg hk, if_neg hk]
      exact ih

theorem mapLookup_adjust_other {α : Type u} (l : List (String × α))
    {k k' : String} (f : α → α) (h : k' ≠ k) :
    mapLookup (mapAdjust l k f) k' = mapLookup l k' := by
  induction l with
  | nil => simp [mapLookup, mapAdjust]
  | cons e rest ih =>
    rw [mapAdjust, List.map_cons]
    by_cases hk : e.1 = k
    · rw [if_pos hk, mapLookup, mapLookup]
      have hne : e.1 ≠ k' := fun he => h (he.symm.trans hk)
      rw [if_neg hne, if_neg hne]
      exact ih
    · rw [if_neg hk, mapLookup, mapLookup]
      by_cases hk' : e.1 = k'
      · rw [if_pos hk', if_pos hk']
      · rw [if_neg hk', if_neg hk']
        exact ih

theorem mem_mapAdjust {α : Type u} {l : List (String × α)} {k : String}
    {f : α → α} {e : String × α} (h : e ∈ mapAdjust l k f) :
    ∃ e₀, e₀ ∈ l ∧ e = (if e₀.1 = k then (e₀.1, f e₀.2) else e₀) := by
  rcases List.mem_map.mp h with ⟨e₀, he₀, heq⟩
  exact ⟨e₀, he₀, heq.symm⟩

theorem mapAdjust_keys {α : Type u} (l : List (String × α)) (k : String)
    (f : α → α) : (mapAdjust l k f).map Prod.fst = l.map Prod.fst := by
  rw [mapAdjust, List.map_map]
  congr 1
  funext e
  by_cases hk : e.1 = k
  · simp [hk]
  · simp [hk]

theorem mapLookup_delete_self {α : Type u} (l : List (String × α))
    (k : String) : mapLookup (mapDelete l k) k = none := by
  induction l with
  | nil => simp [mapLookup, mapDelete]
  | cons e rest ih =>
    rw [mapDelete]
    by_cases hk : e.1 = k
    · rw [if_pos hk]
      exact ih
    · rw [if_neg hk, mapLookup, if_neg hk]
      exact ih

theorem mapLookup_delete_other {α : Type u} (l : List (String × α))
    {k k' : String} (h : k' ≠ k) :
    mapLookup (mapDelete l k) k' = mapLookup l k' := by
  induction l with
  | nil => rfl
  | cons e rest ih =>
    rw [mapDelete]
    by_cases hk : e.1 = k
    · rw [if_pos hk, mapLookup]
      have he : e.1 ≠ k' := fun hke => h (by rw [← hke, hk])
      rw [if_neg he]
      exact ih
    · rw [if_neg hk, mapLookup, mapLookup]
      by_cases hk' : e.1 = k'
      · rw [if_pos hk', if_pos hk']
      · rw [if_neg hk', if_neg hk']
        exact ih

theorem mem_mapDelete {α : Type u} {l : List (String × α)} {k : String}
    {e : String × α} (h : e ∈ mapDelete l k) : e ∈ l := by
  induction l with
  | nil => simp [mapDelete] at h
  | cons e₀ rest ih =>
    rw [mapDelete] at h
    by_cases hk : e₀.1 = k
    · rw [if_pos hk] at h
      exact List.mem_cons_of_mem e₀ (ih h)
    · rw [if_neg hk] at h
      rcases List.mem_cons.mp h with h | h
      · exact h ▸ List.mem_cons_self e₀ rest
      · exact List.mem_cons_of_mem e₀ (ih h)

theorem mapDelete_keys_sublist {α : Type u} (l : List (String × α))
    (k : String) :
    ((mapDelete l k).map Prod.fst).Sublist (l.map Prod.fst) := by
  induction l with
  | nil => simp [mapDelete]
  | cons e rest ih =>
    rw [mapDelete]
    by_cases hk : e.1 = k
    · rw [if_pos hk, List.map_cons]
      exact ih.cons e.1
    · rw [if_neg hk, List.map_cons, List.map_cons]
      exact ih.cons₂ e.1

theorem nodup_key_entry_eq {α : Type u} {l : List (String × α)}
    (hn : (l.map Prod.fst).Nodup) {e₁ e₂ : String × α}
    (h₁ : e₁ ∈ l) (h₂ : e₂ ∈ l) (hk : e₁.1 = e₂.1) : e₁ = e₂ := by
  induction l with
  | nil => simp at h₁
  | cons e rest ih =>
    rw [List.map_cons, List.nodup_cons] at hn
    rcases List.mem_cons.mp h₁ with h₁ | h₁ <;>
      rcases List.mem_cons.mp h₂ with h₂ | h₂
    · rw [h₁, h₂]
    · exfalso
      apply hn.1
      rw [h₁] at hk
      rw [hk]
      exact List.mem_map_of_mem Prod.fst h₂
    · exfalso
      apply hn.1
      rw [h₂] at hk
      rw [← hk]
      exact List.mem_map_of_mem Prod.fst h₁
    · exact ih hn.2 h₁ h₂

/-! ### Data model

`Bot` embeds the bot records created by `BotManager.createBot`, `Meta`
the command records created by `CommandProxy.createCommand` (the source
keeps field names `command`, `ownerId`, `callback`, `webhook`,
`created_at`).  -/

structure Bot where
  id : String
  name : String
  token : String
  role : String
  webhook : Option String
  commands : List String
  created_at : String
deriving DecidableEq

structure Meta where
  command : String
  description : String
  ownerId : String
  callback : Option String
  webhook : Bool
  created_at : String
deriving DecidableEq

/-- In-memory state of the `BotManager` class: `this.bots` (a `Map` from
id to bot) and `this.nextId`. -/
structure BotManager where
  bots : List (String × Bot)
  nextId : Nat
deriving DecidableEq

/-- In-memory state of the `CommandProxy` class: `this.commands` (a `Map`
from normalized command name to meta record). -/
structure CommandProxy where
  commands : List (String × Meta)
deriving DecidableEq

/-- `command.replace(/^\x2f+/, '')`: drop every leading '/' character. -/
def stripSlashes (s : String) : String :=
  String.mk (s.data.dropWhile (fun c => c = '/'))

/-- JS `String.prototype.toLowerCase` (names here are basic latin):
lowercase every character. -/
def toLowerCase (s : String) : String :=
  String.mk (s.data.map Char.toLower)

instance {ε : Type u} {α : Type u} [DecidableEq ε] [DecidableEq α] :
    DecidableEq (Except ε α) := fun a b =>
  match a, b with
  | Except.ok x, Except.ok y =>
    if h : x = y then isTrue (by rw [h])
    else isFalse (fun hc => h (by injection hc))
  | Except.ok _, Except.error _ => isFalse (fun hc => Except.noConfusion hc)
  | Except.error _, Except.ok _ => isFalse (fun hc => Except.noConfusion hc)
  | Except.error x, Except.error y =>
    if h : x = y then isTrue (by rw [h])
    else isFalse (fun hc => h (by injection hc))

/-! ### BotManager operations -/

/-- `BotManager.createBot`; the generated bearer token and the `nowISO()`
timestamp are passed in as oracle values. -/
def createBot (m : BotManager) (name role : String) (webhook : Option String)
    (token now : String) : Bot × BotManager :=
  let id := toString m.nextId
  let bot : Bot := { id := id, name := name, token := token, role := role,
                     webhook := webhook, commands := [], created_at := now }
  (bot, { bots := mapSet m.bots id bot, nextId := m.nextId + 1 })

/-- `BotManager.getBotById`. -/
def getBotById (m : BotManager) (id : String) : Option Bot :=
  mapLookup m.bots id

/-- `BotManager.getBotByToken`: first bot, in map iteration order, whose
token is an exact match. -/
def getBotByToken (m : BotManager) (token : String) : Option Bot :=
  (m.bots.find? (fun e => e.2.token == token)).map Prod.snd

/-- Per-bot update performed by `attachCommandToBot`:
`if (!bot.commands.includes(commandName)) bot.commands.push(commandName)`. -/
def attachFun (commandName : String) (b : Bot) : Bot :=
  if commandName ∈ b.commands then b
  else { b with commands := b.commands ++ [commandName] }

/-- Per-bot update performed by `removeCommandFromBot`:
`bot.commands = bot.commands.filter(c => c !== commandName)`. -/
def removeFun (commandName : String) (b : Bot) : Bot :=
  { b with commands := b.commands.filter (fun c => c ≠ commandName) }

/-- `BotManager.attachCommandToBot`: push the name onto `bot.commands`
unless already present; `false` when the bot id is unknown. -/
def attachCommandToBot (m : BotManager) (botId commandName : String) :
    BotManager × Bool :=
  match mapLookup m.bots botId with
  | none => (m, false)
  | some _ =>
    ({ m with bots := mapAdjust m.bots botId (attachFun commandName) }, true)

/-- `BotManager.removeCommandFromBot`: filter the name out of
`bot.commands`; `false` when the bot id is unknown. -/
def removeCommandFromBot (m : BotManager) (botId commandName : String) :
    BotManager × Bool :=
  match mapLookup m.bots botId with
  | none => (m, false)
  | some _ =>
    ({ m with bots := mapAdjust m.bots botId (removeFun commandName) }, true)

/-! ### CommandProxy operations -/

inductive CreateError where
  | invalidToken    -- throw new Error('Invalid bot token')
  | invalidName     -- throw new Error('Invalid command')
  | duplicateName   -- throw new Error('Command already exists')
deriving DecidableEq

/-- The meta record built by `createCommand` on success. -/
def mkMeta (bot : Bot) (command description : String)
    (callback : Option String) (webhook : Bool) (now : String) : Meta :=
  { command := toLowerCase (stripSlashes command), description := description,
    ownerId := bot.id, callback := callback, webhook := webhook,
    created_at := now }

/-- `CommandProxy.createCommand`.  A thrown validation error is modelled
as an error result paired with the state at the point of the throw; the
embedding keeps the statement order of the source, so any mutation that
preceded a throw would be visible in the returned state. -/
def createCommand (p : CommandProxy) (m : BotManager)
    (token command description : String) (callback : Option String)
    (webhook : Bool) (now : String) :
    Except CreateError Meta × CommandProxy × BotManager :=
  match getBotByToken m token with
  | none => (Except.error CreateError.invalidToken, p, m)
  | some bot =>
    if command = "" then (Except.error CreateError.invalidName, p, m)
    else if (mapLookup p.commands (toLowerCase (stripSlashes command))).isSome then
      (Except.error CreateError.duplicateName, p, m)
    else
      (Except.ok (mkMeta bot command description callback webhook now),
       { commands := mapSet p.commands (toLowerCase (stripSlashes command))
           (mkMeta bot command description callback webhook now) },
       (attachCommandToBot m bot.id (toLowerCase (stripSlashes command))).1)

/-- `CommandProxy.getCommand`: `this.commands.get(String(name).toLowerCase())`.
Note: the lookup lowercases but does not strip leading slashes. -/
def getCommand (p : CommandProxy) (name : String) : Option Meta :=
  mapLookup p.commands (toLowerCase name)

/-- `CommandProxy.deleteCommand`.  Note: like `getCommand`, it lowercases
the name but does not strip leading slashes. -/
def deleteCommand (p : CommandProxy) (m : BotManager) (name : String) :
    Bool × CommandProxy × BotManager :=
  match mapLookup p.commands (toLowerCase name) with
  | none => (false, p, m)
  | some meta =>
    (true,
     { commands := mapDelete p.commands (toLowerCase name) },
     (removeCommandFromBot m meta.ownerId (toLowerCase name)).1)

inductive ConsoleError where
  | invalidToken             -- throw new Error('Invalid bot token')
  | permissionDenied         -- throw new Error('Bot permission denied')
  | executionError (msg : String)  -- throw new Error('Exec error: ' + ...)
deriving DecidableEq

/-- `CommandProxy.runCommandAsConsole`.  The host-console hook or the
`child_process.execSync` fallback is a single oracle `e`; the returned
`Bool` records whether execution was reached.  The role check keeps the
source's redundant condition
`!['admin','executor'].includes(bot.role) && bot.role !== 'admin'`. -/
def runCommandAsConsole (m : BotManager) (e : String → Except String String)
    (cmd token : String) : Except ConsoleError String × Bool :=
  match getBotByToken m token with
  | none => (Except.error ConsoleError.invalidToken, false)
  | some bot =>
    if ¬(bot.role = "admin" ∨ bot.role = "executor") ∧ bot.role ≠ "admin" then
      (Except.error ConsoleError.permissionDenied, false)
    else
      match e cmd with
      | Except.ok out => (Except.ok out, true)
      | Except.error msg =>
        (Except.error (ConsoleError.executionError msg), true)

/-! ### Dispatch engine -/

/-- The webhook payload built in `handlePlayerCommand` step 2. -/
structure WebhookPayload where
  event : String
  command : String
  playerId : Nat
  playerName : String
  args : List String
  meta : Meta
  timestamp : String
deriving DecidableEq

/-- Runtime environment of the dispatch path: whether the VynixC instance
exposes `callCallback`, and the outcomes of the callback invocation and
of the webhook delivery (oracles for the awaited external calls). -/
structure DispatchEnv where
  hasCallCallback : Bool
  callbackOutcome : Except String Unit
  webhookOutcome : Except String Unit

/-- Observable outcome of `handlePlayerCommand`: its return value plus the
side effects performed (callback invocation, webhook delivery attempt,
warnings logged for caught failures). -/
structure HandleResult where
  handled : Bool
  callbackInvoked : Bool
  webhookSent : Option WebhookPayload
  warnings : List String
deriving DecidableEq

/-- `CommandProxy.handlePlayerCommand`.  Failures of the callback and of
the webhook delivery are caught (`try`/`catch` and `.catch`) and logged
as warnings; the source then still returns `true` whenever a definition
matched. -/
def handlePlayerCommand (p : CommandProxy) (m : BotManager)
    (env : DispatchEnv) (playerId : Nat) (playerName commandName : String)
    (args : List String) (now : String) : HandleResult :=
  let name := toLowerCase (stripSlashes commandName)
  match getCommand p name with
  | none => { handled := false, callbackInvoked := false,
              webhookSent := none, warnings := [] }
  | some meta =>
    let doCb := meta.callback.isSome && env.hasCallCallback
    let cbWarn : List String :=
      if doCb then
        match env.callbackOutcome with
        | Except.ok _ => []
        | Except.error msg => [msg]   -- caught, logged with logWarn
      else []
    let payload : Option WebhookPayload :=
      if meta.webhook then
        match getBotById m meta.ownerId with
        | some bot =>
          match bot.webhook with
          | some _ => some { event := "command_trigger", command := meta.command,
                             playerId := playerId, playerName := playerName,
                             args := args, meta := meta, timestamp := now }
          | none => none
        | none => none
      else none
    let whWarn : List String :=
      if payload.isSome then
        match env.webhookOutcome with
        | Except.ok _ => []
        | Except.error msg => [msg]   -- caught by the .catch handler
      else []
    { handled := true, callbackInvoked := doCb,
      webhookSent := payload, warnings := cbWarn ++ whWarn }

/-! ### Persistence adapter

The sqlite backend is two tables keyed by primary key, each row holding
the JSON-serialized entity; `JSON.stringify`/`JSON.parse` is modelled as
the identity on records, so a row stores the record itself.  The JSON
backend is a single file `vynixc_commands.json`: **both**
`BotManager.saveToStorage` and `CommandProxy.saveCommands` write this one
path, each time replacing the whole document. -/

structure SqliteDB where
  bots : List (String × Bot)
  commands : List (String × Meta)
deriving DecidableEq

/-- The document shape written to `vynixc_commands.json`; a field is
`none` when the writer did not emit that key. -/
structure JsonDoc where
  nextId : Option Nat
  bots : Option (List Bot)
  commands : Option (List Meta)
deriving DecidableEq

/-- `BotManager.saveToStorage`, sqlite branch: `REPLACE INTO bots` for
every entry of the in-memory map. -/
def saveBotsSqlite (m : BotManager) (db : SqliteDB) : SqliteDB :=
  { db with bots := m.bots.foldl (fun t e => mapSet t e.1 e.2) db.bots }

/-- `CommandProxy.saveCommands`, sqlite branch. -/
def saveCommandsSqlite (p : CommandProxy) (db : SqliteDB) : SqliteDB :=
  { db with commands :=
      p.commands.foldl (fun t e => mapSet t e.1 e.2) db.commands }

/-- `BotManager.loadFromStorage`, sqlite branch, starting from the
constructor state (`bots` empty, `nextId = 1`). -/
def loadBotsSqlite (db : SqliteDB) : BotManager :=
  { bots := db.bots.foldl (fun acc e => mapSet acc e.2.id e.2) [],
    nextId := db.bots.foldl
      (fun acc e => max acc ((e.2.id.toNat?).getD 0 + 1)) 1 }

/-- `CommandProxy.initPersistence`, sqlite branch. -/
def loadCommandsSqlite (db : SqliteDB) : CommandProxy :=
  { commands := db.commands.foldl (fun acc e => mapSet acc e.2.command e.2) [] }

/-- `BotManager.saveToStorage`, JSON branch: overwrite the file with
`{ nextId, bots }` (no `commands` key). -/
def saveBotsJson (m : BotManager) : JsonDoc :=
  { nextId := some m.nextId, bots := some (m.bots.map Prod.snd),
    commands := none }

/-- `CommandProxy.saveCommands`, JSON branch: overwrite the file with
`{ commands }` (no `nextId` or `bots` key). -/
def saveCommandsJson (p : CommandProxy) : JsonDoc :=
  { nextId := none, bots := none,
    commands := some (p.commands.map Prod.snd) }

/-- `BotManager.loadFromStorage`, JSON branch (`none` = file absent):
`this.nextId = obj.nextId || 1` and `this.bots.set(bot.id, bot)` for each
element of `obj.bots || []`, starting from the constructor state. -/
def loadBotsJson (file : Option JsonDoc) : BotManager :=
  match file with
  | none => { bots := [], nextId := 1 }
  | some doc =>
    { bots := (doc.bots.getD []).foldl (fun acc b => mapSet acc b.id b) [],
      nextId := match doc.nextId with
                | some n => if n = 0 then 1 else n
                | none => 1 }

/-- `CommandProxy.initPersistence`, JSON branch. -/
def loadCommandsJson (file : Option JsonDoc) : CommandProxy :=
  match file with
  | none => { commands := [] }
  | some doc =>
    { commands :=
        (doc.commands.getD []).foldl (fun acc c => mapSet acc c.command c) [] }

/-! ### Registry / ownership invariant -/

/-- Well-formedness of the bot map, maintained by the source: `Map` keys
are unique, and each bot is stored under its own `id`
(`this.bots.set(id, bot)` / `this.bots.set(bot.id, bot)`). -/
def WF (m : BotManager) : Prop :=
  (m.bots.map Prod.fst).Nodup ∧ ∀ e ∈ m.bots, e.2.id = e.1

/-- Inductive invariant connecting the command registry with the bots'
`commands` lists: every registered command's owner exists and lists the
command, and every listed command is registered to exactly that owner. -/
def Inv (p : CommandProxy) (m : BotManager) : Prop :=
  WF m ∧
  (∀ e ∈ p.commands,
     ∃ b, mapLookup m.bots e.2.ownerId = some b ∧ e.1 ∈ b.commands) ∧
  (∀ e ∈ m.bots, ∀ n ∈ e.2.commands,
     ∃ meta, mapLookup p.commands n = some meta ∧ meta.ownerId = e.1)

/-- The property claimed by the spec: a name is in the registry iff it is
listed by exactly one identity. -/
def inSync (p : CommandProxy) (m : BotManager) : Prop :=
  ∀ name : String, (mapLookup p.commands name).isSome ↔
    ∃! e : String × Bot, e ∈ m.bots ∧ name ∈ e.2.commands

theorem mem_mapDelete_key {α : Type u} {l : List (String × α)} {k : String}
    {e : String × α} (h : e ∈ mapDelete l k) : e.1 ≠ k := by
  induction l with
  | nil => simp [mapDelete] at h
  | cons e₀ rest ih =>
    rw [mapDelete] at h
    by_cases hk : e₀.1 = k
    · rw [if_pos hk] at h
      exact ih h
    · rw [if_neg hk] at h
      rcases List.mem_cons.mp h with h | h
      · rw [h]; exact hk
      · exact ih h

theorem mapSet_of_lookup_none {α : Type u} {l : List (String × α)}
    {k : String} (h : mapLookup l k = none) (v : α) :
    mapSet l k v = l ++ [(k, v)] := by
  simp [mapSet, h]

theorem attachFun_id (c : String) (b : Bot) : (attachFun c b).id = b.id := by
  unfold attachFun
  by_cases hmem : c ∈ b.commands
  · rw [if_pos hmem]
  · rw [if_neg hmem]

theorem mem_attachFun {c n : String} {b : Bot} :
    n ∈ (attachFun c b).commands ↔ (n ∈ b.commands ∨ n = c) := by
  unfold attachFun
  by_cases hmem : c ∈ b.commands
  · rw [if_pos hmem]
    constructor
    · exact Or.inl
    · rintro (h | h)
      · exact h
      · exact h ▸ hmem
  · rw [if_neg hmem]
    show n ∈ b.commands ++ [c] ↔ _
    simp [List.mem_append]

theorem removeFun_id (c : String) (b : Bot) : (removeFun c b).id = b.id := rfl

theorem mem_removeFun {c n : String} {b : Bot} :
    n ∈ (removeFun c b).commands ↔ (n ∈ b.commands ∧ n ≠ c) := by
  show n ∈ b.commands.filter (fun x => x ≠ c) ↔ _
  simp [List.mem_filter]

theorem getBotByToken_entry {m : BotManager} {token : String} {bot : Bot}
    (h : getBotByToken m token = some bot) : ∃ k, (k, bot) ∈ m.bots := by
  unfold getBotByToken at h
  cases hf : m.bots.find? (fun e => e.2.token == token) with
  | none => rw [hf] at h; cases h
  | some e =>
    rw [hf] at h
    injection h with h'
    refine ⟨e.1, ?_⟩
    rw [← h']
    exact List.mem_of_find?_eq_some hf

theorem getBotByToken_lookup {m : BotManager} {token : String} {bot : Bot}
    (hwf : WF m) (h : getBotByToken m token = some bot) :
    mapLookup m.bots bot.id = some bot := by
  obtain ⟨k, hk⟩ := getBotByToken_entry h
  have hid : bot.id = k := hwf.2 (k, bot) hk
  rw [hid]
  exact mem_mapLookup_of_nodup hwf.1 hk

/-- Anatomy of a successful `createCommand`: the token resolved, the name
was non-empty and its normalized form fresh, the meta record was appended
to the registry and the name attached to the owning bot. -/
theorem createCommand_ok {p : CommandProxy} {m : BotManager}
    {token command description : String} {callback : Option String}
    {webhook : Bool} {now : String} {meta : Meta} {p' : CommandProxy}
    {m' : BotManager}
    (h : createCommand p m token command description callback webhook now =
      (Except.ok meta, p', m')) :
    ∃ bot, getBotByToken m token = some bot ∧ command ≠ "" ∧
      meta = mkMeta bot command description callback webhook now ∧
      mapLookup p.commands (toLowerCase (stripSlashes command)) = none ∧
      p'.commands = p.commands ++ [(toLowerCase (stripSlashes command), meta)] ∧
      m' = (attachCommandToBot m bot.id (toLowerCase (stripSlashes command))).1 := by
  unfold createCommand at h
  cases hbt : getBotByToken m token with
  | none => rw [hbt] at h; simp at h
  | some bot =>
    rw [hbt] at h
    dsimp only at h
    by_cases hc : command = ""
    · rw [if_pos hc] at h; simp at h
    · rw [if_neg hc] at h
      by_cases hd : (mapLookup p.commands (toLowerCase (stripSlashes command))).isSome
      · rw [if_pos hd] at h; simp at h
      · rw [if_neg hd] at h
        simp only [Prod.mk.injEq] at h
        obtain ⟨h1, h2, h3⟩ := h
        injection h1 with h1
        refine ⟨bot, rfl, hc, h1.symm, Option.not_isSome_iff_eq_none.mp hd,
          ?_, h3.symm⟩
        rw [← h2, h1]
        exact mapSet_of_lookup_none (Option.not_isSome_iff_eq_none.mp hd) _

theorem deleteCommand_found {p : CommandProxy} {m : BotManager}
    {name : String} {meta : Meta}
    (h : mapLookup p.commands (toLowerCase name) = some meta) :
    deleteCommand p m name =
      (true, { commands := mapDelete p.commands (toLowerCase name) },
       (removeCommandFromBot m meta.ownerId (toLowerCase name)).1) := by
  unfold deleteCommand
  rw [h]

theorem deleteCommand_missing {p : CommandProxy} {m : BotManager}
    {name : String} (h : mapLookup p.commands (toLowerCase name) = none) :
    deleteCommand p m name = (false, p, m) := by
  unfold deleteCommand
  rw [h]

/-- `createCommand` keeps the registry and the bots' `commands` lists in
sync: it adds the normalized name to both. -/
theorem createCommand_preserves_Inv {p : CommandProxy} {m : BotManager}
    {token command description : String} {callback : Option String}
    {webhook : Bool} {now : String} {meta : Meta} {p' : CommandProxy}
    {m' : BotManager}
    (hInv : Inv p m)
    (h : createCommand p m token command description callback webhook now =
      (Except.ok meta, p', m')) :
    Inv p' m' := by
  obtain ⟨hwf, hreg, hbots⟩ := hInv
  obtain ⟨bot, hbt, hc, hmeta, hnone, hp', hm'⟩ := createCommand_ok h
  have hlkb : mapLookup m.bots bot.id = some bot := getBotByToken_lookup hwf hbt
  have hmo : meta.ownerId = bot.id := by rw [hmeta]; rfl
  have hm'bots : m'.bots =
      mapAdjust m.bots bot.id (attachFun (toLowerCase (stripSlashes command))) := by
    rw [hm']
    unfold attachCommandToBot
    rw [hlkb]
  refine ⟨⟨?_, ?_⟩, ?_, ?_⟩
  · rw [hm'bots, mapAdjust_keys]
    exact hwf.1
  · intro e he
    rw [hm'bots] at he
    obtain ⟨e₀, he₀, heq⟩ := mem_mapAdjust he
    by_cases hk : e₀.1 = bot.id
    · rw [if_pos hk] at heq
      rw [heq]
      show (attachFun _ e₀.2).id = e₀.1
      rw [attachFun_id]
      exact hwf.2 e₀ he₀
    · rw [if_neg hk] at heq
      rw [heq]
      exact hwf.2 e₀ he₀
  · intro e he
    rw [hp'] at he
    rw [hm'bots]
    rcases List.mem_append.mp he with he | he
    · obtain ⟨b₀, hb₀, hmem₀⟩ := hreg e he
      by_cases ho : e.2.ownerId = bot.id
      · refine ⟨attachFun (toLowerCase (stripSlashes command)) bot, ?_, ?_⟩
        · rw [ho, mapLookup_adjust_self, hlkb]
          rfl
        · rw [mem_attachFun]
          left
          rw [ho] at hb₀
          rw [hlkb] at hb₀
          injection hb₀ with hb₀
          rw [hb₀]
          exact hmem₀
      · refine ⟨b₀, ?_, hmem₀⟩
        rw [mapLookup_adjust_other _ _ ho]
        exact hb₀
    · have he' : e = ((toLowerCase (stripSlashes command)), meta) := by
        simpa using he
      rw [he']
      refine ⟨attachFun (toLowerCase (stripSlashes command)) bot, ?_, ?_⟩
      · show mapLookup _ meta.ownerId = _
        rw [hmo, mapLookup_adjust_self, hlkb]
        rfl
      · rw [mem_attachFun]
        right
        rfl
  · intro e he n hn
    rw [hm'bots] at he
    rw [hp']
    obtain ⟨e₀, he₀, heq⟩ := mem_mapAdjust he
    by_cases hk : e₀.1 = bot.id
    · have he₀' : e₀ = (bot.id, bot) :=
        nodup_key_entry_eq hwf.1 he₀ (mapLookup_eq_some_mem hlkb) hk
      rw [if_pos hk, he₀'] at heq
      rw [heq] at hn
      rw [heq]
      rcases mem_attachFun.mp hn with hn | hn
      · obtain ⟨meta₁, hlk₁, ho₁⟩ :=
          hbots (bot.id, bot) (mapLookup_eq_some_mem hlkb) n hn
        have hne : n ≠ toLowerCase (stripSlashes command) := by
          intro hcontra
          rw [hcontra, hnone] at hlk₁
          cases hlk₁
        refine ⟨meta₁, ?_, ho₁⟩
        rw [mapLookup_append_other _ hne]
        exact hlk₁
      · refine ⟨meta, ?_, ?_⟩
        · rw [hn]
          exact mapLookup_append_new hnone meta
        · exact hmo
    · rw [if_neg hk] at heq
      rw [heq] at hn
      rw [heq]
      obtain ⟨meta₁, hlk₁, ho₁⟩ := hbots e₀ he₀ n hn
      have hne : n ≠ toLowerCase (stripSlashes command) := by
        intro hcontra
        rw [hcontra, hnone] at hlk₁
        cases hlk₁
      refine ⟨meta₁, ?_, ho₁⟩
      rw [mapLookup_append_other _ hne]
      exact hlk₁

/-- `deleteCommand` keeps the registry and the bots' `commands` lists in
sync: it removes the name from both (and is the identity when the name is
absent). -/
theorem deleteCommand_preserves_Inv {p : CommandProxy} {m : BotManager}
    {name : String} {r : Bool} {p' : CommandProxy} {m' : BotManager}
    (hInv : Inv p m) (h : deleteCommand p m name = (r, p', m')) :
    Inv p' m' := by
  obtain ⟨hwf, hreg, hbots⟩ := hInv
  cases hlk : mapLookup p.commands (toLowerCase name) with
  | none =>
    rw [deleteCommand_missing hlk] at h
    simp only [Prod.mk.injEq] at h
    obtain ⟨h1, h2, h3⟩ := h
    rw [← h2, ← h3]
    exact ⟨hwf, hreg, hbots⟩
  | some meta =>
    rw [deleteCommand_found hlk] at h
    simp only [Prod.mk.injEq] at h
    obtain ⟨h1, h2, h3⟩ := h
    obtain ⟨b₀, hb₀, hmem₀⟩ :=
      hreg ((toLowerCase name), meta) (mapLookup_eq_some_mem hlk)
    have hm'bots : m'.bots =
        mapAdjust m.bots meta.ownerId (removeFun (toLowerCase name)) := by
      rw [← h3]
      unfold removeCommandFromBot
      rw [hb₀]
    have hp'c : p'.commands = mapDelete p.commands (toLowerCase name) := by
      rw [← h2]
    refine ⟨⟨?_, ?_⟩, ?_, ?_⟩
    · rw [hm'bots, mapAdjust_keys]
      exact hwf.1
    · intro e he
      rw [hm'bots] at he
      obtain ⟨e₀, he₀, heq⟩ := mem_mapAdjust he
      by_cases hk : e₀.1 = meta.ownerId
      · rw [if_pos hk] at heq
        rw [heq]
        show (removeFun _ e₀.2).id = e₀.1
        rw [removeFun_id]
        exact hwf.2 e₀ he₀
      · rw [if_neg hk] at heq
        rw [heq]
        exact hwf.2 e₀ he₀
    · intro e he
      rw [hp'c] at he
      rw [hm'bots]
      have hekey : e.1 ≠ (toLowerCase name) := mem_mapDelete_key he
      have he' : e ∈ p.commands := mem_mapDelete he
      obtain ⟨b₁, hb₁, hmem₁⟩ := hreg e he'
      by_cases ho : e.2.ownerId = meta.ownerId
      · refine ⟨removeFun (toLowerCase name) b₀, ?_, ?_⟩
        · rw [ho, mapLookup_adjust_self, hb₀]
          rfl
        · rw [mem_removeFun]
          rw [ho] at hb₁
          rw [hb₀] at hb₁
          injection hb₁ with hb₁
          rw [hb₁]
          exact ⟨hmem₁, hekey⟩
      · refine ⟨b₁, ?_, hmem₁⟩
        rw [mapLookup_adjust_other _ _ ho]
        exact hb₁
    · intro e he n hn
      rw [hm'bots] at he
      rw [hp'c]
      obtain ⟨e₀, he₀, heq⟩ := mem_mapAdjust he
      by_cases hk : e₀.1 = meta.ownerId
      · rw [if_pos hk] at heq
        rw [heq] at hn
        rw [heq]
        obtain ⟨hn', hne⟩ := mem_removeFun.mp hn
        obtain ⟨meta₁, hlk₁, ho₁⟩ := hbots e₀ he₀ n hn'
        refine ⟨meta₁, ?_, ho₁⟩
        rw [mapLookup_delete_other _ hne]
        exact hlk₁
      · rw [if_neg hk] at heq
        rw [heq] at hn
        rw [heq]
        obtain ⟨meta₁, hlk₁, ho₁⟩ := hbots e₀ he₀ n hn
        have hne : n ≠ (toLowerCase name) := by
          intro hcontra
          rw [hcontra, hlk] at hlk₁
          injection hlk₁ with hlk₁
          apply hk
          rw [hlk₁]
          exact ho₁.symm
        refine ⟨meta₁, ?_, ho₁⟩
        rw [mapLookup_delete_other _ hne]
        exact hlk₁

/-- The inductive invariant implies the spec's statement: a name is in
the registry iff exactly one identity lists it. -/
theorem Inv_inSync {p : CommandProxy} {m : BotManager} (h : Inv p m) :
    inSync p m := by
  obtain ⟨hwf, hreg, hbots⟩ := h
  intro name
  constructor
  · intro hsome
    obtain ⟨meta, hmeta⟩ := Option.isSome_iff_exists.mp hsome
    obtain ⟨b, hb, hmem⟩ := hreg (name, meta) (mapLookup_eq_some_mem hmeta)
    refine ⟨(meta.ownerId, b), ⟨mapLookup_eq_some_mem hb, hmem⟩, ?_⟩
    rintro ⟨k', b'⟩ ⟨hmem', hown'⟩
    obtain ⟨meta', hlk', ho'⟩ := hbots (k', b') hmem' name hown'
    have hmm : meta' = meta := by
      rw [hmeta] at hlk'
      injection hlk' with hx
      exact hx.symm
    have hkey : (k', b').1 = (meta.ownerId, b).1 := by
      show k' = meta.ownerId
      rw [← hmm, ho']
    exact nodup_key_entry_eq hwf.1 hmem' (mapLookup_eq_some_mem hb) hkey
  · intro hex
    obtain ⟨e, ⟨hmem, hown⟩, _⟩ := hex
    obtain ⟨meta', hlk', _⟩ := hbots e hmem name hown
    rw [hlk']
    rfl

/-! ### Concrete sample states for witnesses and counterexamples -/

def botW : Bot :=
  { id := "1", name := "Shop", token := "tok", role := "admin",
    webhook := some "http://x/hook", commands := [], created_at := "t0" }

/-- `botW` after `attachCommandToBot "1" "vip"`. -/
def botV : Bot := { botW with commands := ["vip"] }

/-- `botW` after `attachCommandToBot "1" "x"`. -/
def botX : Bot := { botW with commands := ["x"] }

def mW : BotManager := { bots := [("1", botW)], nextId := 2 }

def pW : CommandProxy := { commands := [] }

def metaW : Meta :=
  { command := "vip", description := "", ownerId := "1",
    callback := some "OnVip", webhook := true, created_at := "t1" }

def mV : BotManager := { bots := [("1", botV)], nextId := 2 }

def pV : CommandProxy := { commands := [("vip", metaW)] }

def metaX : Meta :=
  { command := "x", description := "", ownerId := "1", callback := none,
    webhook := false, created_at := "t1" }

def mX : BotManager := { bots := [("1", botX)], nextId := 2 }

def pX : CommandProxy := { commands := [("x", metaX)] }

/-- `fs.writeFileSync(JSON_DB, ...)`: every write replaces the whole
document, whichever module performs it. -/
def jsonWrite (d : JsonDoc) : Option JsonDoc → Option JsonDoc :=
  fun _ => some d

theorem inv_pW_mW : Inv pW mW := by
  refine ⟨⟨by decide, ?_⟩, ?_, ?_⟩
  · intro e he
    have h : e = ("1", botW) := by simpa [mW] using he
    rw [h]
    rfl
  · intro e he
    simp [pW] at he
  · intro e he n hn
    have h : e = ("1", botW) := by simpa [mW] using he
    rw [h] at hn
    simp [botW] at hn

theorem inv_pX_mX : Inv pX mX := by
  refine ⟨⟨by decide, ?_⟩, ?_, ?_⟩
  · intro e he
    have h : e = ("1", botX) := by simpa [mX] using he
    rw [h]
    rfl
  · intro e he
    have h : e = ("x", metaX) := by simpa [pX] using he
    rw [h]
    exact ⟨botX, by decide, by decide⟩
  · intro e he n hn
    have h : e = ("1", botX) := by simpa [mX] using he
    rw [h] at hn
    have hn' : n = "x" := by simpa [botX, botW] using hn
    refine ⟨metaX, ?_, ?_⟩
    · rw [hn']
      decide
    · rw [h]
      decide

/-! ### Claims -/

/-- C1: the spec claims full-state save-then-load reproduces identities
and commands field-for-field on both backends, with the two entity sets
round-tripping independently on the flat-document backend.  The sqlite
backend does round-trip (first conjunct), but on the JSON backend both
modules overwrite the single shared file `vynixc_commands.json`: after
saving bots and then commands (the order every mutation produces), the
reloaded bot set is empty, and in the reverse order the reloaded command
set is empty.  The last conjuncts show each entity class round-trips only
when its write is the final one. -/
theorem c1_persistence_roundtrip_broken :
    ((loadBotsSqlite
        (saveCommandsSqlite pV (saveBotsSqlite mV ⟨[], []⟩))).bots.map
          Prod.snd = [botV] ∧
     (loadCommandsSqlite
        (saveCommandsSqlite pV (saveBotsSqlite mV ⟨[], []⟩))).commands.map
          Prod.snd = [metaW]) ∧
    ((loadBotsJson
        (jsonWrite (saveCommandsJson pV)
          (jsonWrite (saveBotsJson mV) none))).bots = [] ∧
     mV.bots ≠ []) ∧
    ((loadCommandsJson
        (jsonWrite (saveBotsJson mV)
          (jsonWrite (saveCommandsJson pV) none))).commands = [] ∧
     pV.commands ≠ []) ∧
    (loadBotsJson (some (saveBotsJson mV))).bots = mV.bots ∧
    (loadCommandsJson (some (saveCommandsJson pV))).commands = pV.commands := by
  decide

/-- C2 counterexample: creating the spec's own example name `/VIP`
succeeds and stores the definition under `vip`, yet `getCommand "/VIP"`
returns absent — the lookup lowercases but does not strip leading
slashes, so it does not normalize the same way as creation. -/
theorem c2_counterexample :
    createCommand pW mW "tok" "/VIP" "" (some "OnVip") true "t1" =
      (Except.ok metaW, pV, mV) ∧
    getCommand pV "vip" = some metaW ∧
    getCommand pV "/VIP" = none := by
  decide

/-- C2 (amended): `getCommand` normalizes only by lowercasing, so after a
successful creation, `get` returns the stored definition exactly for the
spellings whose lowercase form equals the normalized name (casing
variants without extra leading slashes). -/
theorem c2_lookup_lowercases_only {p : CommandProxy} {m : BotManager}
    {token command description : String} {callback : Option String}
    {webhook : Bool} {now : String} {meta : Meta} {p' : CommandProxy}
    {m' : BotManager} (s : String)
    (h : createCommand p m token command description callback webhook now =
      (Except.ok meta, p', m'))
    (hs : toLowerCase s = toLowerCase (stripSlashes command)) :
    getCommand p' s = some meta := by
  obtain ⟨bot, _, _, _, hnone, hp', _⟩ := createCommand_ok h
  unfold getCommand
  rw [hs, hp']
  exact mapLookup_append_new hnone meta

theorem c2_lookup_lowercases_only_witness : getCommand pV "VIP" = some metaW :=
  c2_lookup_lowercases_only "VIP"
    (show createCommand pW mW "tok" "/VIP" "" (some "OnVip") true "t1" =
      (Except.ok metaW, pV, mV) by decide)
    (by decide)

/-- C3 counterexample: the registry/ownership sync invariant is *not*
preserved by `attachCommandToBot` taken as an operation of its own: from
a synchronized state (empty registry, one bot owning nothing), attaching
the name `x` to bot `1` records ownership of a name that is absent from
the registry. -/
theorem c3_counterexample :
    inSync pW mW ∧ ¬ inSync pW (attachCommandToBot mW "1" "x").1 := by
  constructor
  · intro name
    constructor
    · intro hs
      simp [pW, mapLookup] at hs
    · rintro ⟨e, ⟨hmem, hown⟩, -⟩
      have h : e = ("1", botW) := by simpa [mW] using hmem
      rw [h] at hown
      simp [botW] at hown
  · intro hsync
    have hb : (attachCommandToBot mW "1" "x").1.bots = [("1", botX)] := by
      decide
    have hx : (mapLookup pW.commands "x").isSome := by
      refine (hsync "x").mpr ⟨("1", botX), ⟨?_, ?_⟩, ?_⟩
      · rw [hb]
        exact List.mem_singleton.mpr rfl
      · decide
      · rintro y ⟨hmem, -⟩
        rw [hb] at hmem
        exact List.mem_singleton.mp hmem
    simp [pW, mapLookup] at hx

/-- C3 (amended): the sync invariant — a name is in the registry iff
exactly one identity lists it — is preserved by the registry-level
mutating operations `createCommand` and `deleteCommand` (which call
attach/remove internally); `attachCommandToBot` and
`removeCommandFromBot` maintain it only as sub-steps of those
operations, not in isolation. -/
theorem c3_sync_preserved :
    (∀ (p : CommandProxy) (m : BotManager)
       (token command description : String) (callback : Option String)
       (webhook : Bool) (now : String) (meta : Meta) (p' : CommandProxy)
       (m' : BotManager),
       Inv p m →
       createCommand p m token command description callback webhook now =
         (Except.ok meta, p', m') →
       Inv p' m' ∧ inSync p' m') ∧
    (∀ (p : CommandProxy) (m : BotManager) (name : String) (r : Bool)
       (p' : CommandProxy) (m' : BotManager),
       Inv p m → deleteCommand p m name = (r, p', m') →
       Inv p' m' ∧ inSync p' m') := by
  constructor
  · intro p m token command description callback webhook now meta p' m' hInv h
    have hInv' := createCommand_preserves_Inv hInv h
    exact ⟨hInv', Inv_inSync hInv'⟩
  · intro p m name r p' m' hInv h
    have hInv' := deleteCommand_preserves_Inv hInv h
    exact ⟨hInv', Inv_inSync hInv'⟩

theorem c3_sync_preserved_witness : Inv pV mV ∧ inSync pV mV :=
  c3_sync_preserved.1 pW mW "tok" "/VIP" "" (some "OnVip") true "t1" metaW
    pV mV inv_pW_mW (by decide)

/-- C4: an invalid token makes `createCommand` fail with `InvalidToken`
and leave both the registry and the bot store untouched; more generally
every validation failure (`InvalidToken`, `InvalidName`,
`DuplicateName`) returns the input state unchanged — the checks all
precede the first mutation. -/
theorem c4_validation_is_atomic (p : CommandProxy) (m : BotManager)
    (token command description : String) (callback : Option String)
    (webhook : Bool) (now : String) :
    (getBotByToken m token = none →
      createCommand p m token command description callback webhook now =
        (Except.error CreateError.invalidToken, p, m)) ∧
    (∀ err : CreateError,
      (createCommand p m token command description callback webhook now).1 =
        Except.error err →
      createCommand p m token command description callback webhook now =
        (Except.error err, p, m)) := by
  constructor
  · intro h
    unfold createCommand
    rw [h]
  · intro err herr
    unfold createCommand at herr ⊢
    cases hbt : getBotByToken m token with
    | none =>
      rw [hbt] at herr
      dsimp only at herr
      injection herr with herr
      rw [← herr]
    | some bot =>
      rw [hbt] at herr
      dsimp only at herr ⊢
      by_cases hc : command = ""
      · rw [if_pos hc] at herr ⊢
        injection herr with herr
        rw [← herr]
      · rw [if_neg hc] at herr ⊢
        by_cases hd :
            (mapLookup p.commands (toLowerCase (stripSlashes command))).isSome
        · rw [if_pos hd] at herr ⊢
          injection herr with herr
          rw [← herr]
        · rw [if_neg hd] at herr ⊢
          exact absurd herr (by simp)

theorem c4_validation_is_atomic_witness :
    createCommand pV mV "badtoken" "x" "" none false "t2" =
      (Except.error CreateError.invalidToken, pV, mV) :=
  (c4_validation_is_atomic pV mV "badtoken" "x" "" none false "t2").1
    (by decide)

/-- C5 counterexample: the first creation of `/X` succeeds, and a second
`createCommand` call whose name `X` has the same normalized form but
whose token resolves to no identity fails with `InvalidToken`, not
`DuplicateName` — the token check precedes the duplicate check. -/
theorem c5_counterexample :
    createCommand pW mW "tok" "/X" "" none false "t1" =
      (Except.ok metaX, pX, mX) ∧
    toLowerCase (stripSlashes "X") = toLowerCase (stripSlashes "/X") ∧
    (createCommand pX mX "badtoken" "X" "" none false "t2").1 =
      Except.error CreateError.invalidToken ∧
    CreateError.invalidToken ≠ CreateError.duplicateName := by
  decide

/-- C5 (amended): after a successful creation, a second `createCommand`
call whose name has the same normalized form fails with `DuplicateName`
and leaves the state unchanged, provided the second call's token
resolves to an identity and its raw name is non-empty (otherwise the
earlier `InvalidToken`/`InvalidName` checks fire first). -/
theorem c5_second_create_duplicate {p : CommandProxy} {m : BotManager}
    {t₁ c₁ d₁ : String} {cb₁ : Option String} {w₁ : Bool} {n₁ : String}
    {meta : Meta} {p₁ : CommandProxy} {m₁ : BotManager}
    (t₂ c₂ d₂ : String) (cb₂ : Option String) (w₂ : Bool) (n₂ : String)
    (h : createCommand p m t₁ c₁ d₁ cb₁ w₁ n₁ = (Except.ok meta, p₁, m₁))
    (htok : (getBotByToken m₁ t₂).isSome)
    (hc : c₂ ≠ "")
    (hnorm : toLowerCase (stripSlashes c₂) = toLowerCase (stripSlashes c₁)) :
    createCommand p₁ m₁ t₂ c₂ d₂ cb₂ w₂ n₂ =
      (Except.error CreateError.duplicateName, p₁, m₁) := by
  obtain ⟨bot, _, _, _, hnone, hp₁, _⟩ := createCommand_ok h
  have hdup : (mapLookup p₁.commands (toLowerCase (stripSlashes c₂))).isSome := by
    rw [hnorm, hp₁, mapLookup_append_new hnone]
    rfl
  obtain ⟨bot₂, hbt₂⟩ := Option.isSome_iff_exists.mp htok
  unfold createCommand
  rw [hbt₂]
  dsimp only
  rw [if_neg hc, if_pos hdup]

theorem c5_second_create_duplicate_witness :
    createCommand pX mX "tok" "//X" "" none false "t2" =
      (Except.error CreateError.duplicateName, pX, mX) :=
  c5_second_create_duplicate "tok" "//X" "" none false "t2"
    (show createCommand pW mW "tok" "/X" "" none false "t1" =
      (Except.ok metaX, pX, mX) by decide)
    (by decide) (by decide) (by decide)

/-- C6: when the registered command has a callback configured and the
callback invocation fails, `handlePlayerCommand` still builds and
attempts the webhook delivery (the owner having a webhook URL and the
command having webhook enabled), still returns `true`, and the failure
is only logged as a warning — it does not propagate. -/
theorem c6_callback_failure_isolated {p : CommandProxy} {m : BotManager}
    {env : DispatchEnv} {meta : Meta} {bot : Bot} {cb : String}
    {playerId : Nat} {playerName commandName : String} {args : List String}
    {now msg : String}
    (hmeta : getCommand p (toLowerCase (stripSlashes commandName)) = some meta)
    (hcb : meta.callback = some cb)
    (henv : env.hasCallCallback = true)
    (hfail : env.callbackOutcome = Except.error msg)
    (hwh : meta.webhook = true)
    (hbot : getBotById m meta.ownerId = some bot)
    (hurl : bot.webhook.isSome) :
    (handlePlayerCommand p m env playerId playerName commandName args
        now).handled = true ∧
    (handlePlayerCommand p m env playerId playerName commandName args
        now).webhookSent =
      some { event := "command_trigger", command := meta.command,
             playerId := playerId, playerName := playerName, args := args,
             meta := meta, timestamp := now } ∧
    msg ∈ (handlePlayerCommand p m env playerId playerName commandName args
        now).warnings := by
  obtain ⟨url, hu⟩ := Option.isSome_iff_exists.mp hurl
  simp only [handlePlayerCommand, hmeta, hcb, henv, hfail, hwh, hbot, hu,
    Option.isSome_some, Bool.and_true, if_true, List.mem_append,
    List.mem_singleton]
  exact ⟨trivial, trivial, Or.inl trivial⟩

def envFail : DispatchEnv :=
  { hasCallCallback := true, callbackOutcome := Except.error "boom",
    webhookOutcome := Except.ok () }

theorem c6_callback_failure_isolated_witness :
    (handlePlayerCommand pV mV envFail 1 "Alice" "/VIP" [] "t2").handled =
      true ∧
    (handlePlayerCommand pV mV envFail 1 "Alice" "/VIP" [] "t2").webhookSent =
      some { event := "command_trigger", command := "vip", playerId := 1,
             playerName := "Alice", args := [], meta := metaW,
             timestamp := "t2" } ∧
    "boom" ∈ (handlePlayerCommand pV mV envFail 1 "Alice" "/VIP" []
        "t2").warnings :=
  c6_callback_failure_isolated
    (show getCommand pV (toLowerCase (stripSlashes "/VIP")) = some metaW
      by decide)
    (show metaW.callback = some "OnVip" by decide)
    rfl rfl
    (show metaW.webhook = true by decide)
    (show getBotById mV metaW.ownerId = some botV by decide)
    (show botV.webhook.isSome by decide)

/-- C7: when the normalized command name is not in the registry,
`handlePlayerCommand` returns `false` with no side effect: no callback
invocation, no webhook delivery, nothing logged. -/
theorem c7_unregistered_no_effect (p : CommandProxy) (m : BotManager)
    (env : DispatchEnv) (playerId : Nat) (playerName commandName : String)
    (args : List String) (now : String)
    (h : getCommand p (toLowerCase (stripSlashes commandName)) = none) :
    handlePlayerCommand p m env playerId playerName commandName args now =
      { handled := false, callbackInvoked := false, webhookSent := none,
        warnings := [] } := by
  simp only [handlePlayerCommand, h]

theorem c7_unregistered_no_effect_witness :
    handlePlayerCommand pV mV envFail 1 "Alice" "/unknown" [] "t2" =
      { handled := false, callbackInvoked := false, webhookSent := none,
        warnings := [] } :=
  c7_unregistered_no_effect pV mV envFail 1 "Alice" "/unknown" [] "t2"
    (by decide)

/-- C8: deleting a registered name returns `true`, removes it from the
registry and leaves no identity listing it (in particular the owner's
`commands` list drops it); deleting an absent name returns `false` and
leaves registry and bot store exactly as they were. -/
theorem c8_delete_removes_both {p : CommandProxy} {m : BotManager}
    {name : String} (hInv : Inv p m) :
    (∀ meta, mapLookup p.commands (toLowerCase name) = some meta →
      (deleteCommand p m name).1 = true ∧
      mapLookup (deleteCommand p m name).2.1.commands (toLowerCase name) =
        none ∧
      ∀ e ∈ (deleteCommand p m name).2.2.bots,
        (toLowerCase name) ∉ e.2.commands) ∧
    (mapLookup p.commands (toLowerCase name) = none →
      deleteCommand p m name = (false, p, m)) := by
  obtain ⟨hwf, hreg, hbots⟩ := hInv
  constructor
  · intro meta hlk
    rw [deleteCommand_found hlk]
    obtain ⟨b₀, hb₀, hmem₀⟩ :=
      hreg ((toLowerCase name), meta) (mapLookup_eq_some_mem hlk)
    refine ⟨rfl, ?_, ?_⟩
    · exact mapLookup_delete_self _ _
    · intro e he hmem
      have hbots' :
          (removeCommandFromBot m meta.ownerId (toLowerCase name)).1.bots =
            mapAdjust m.bots meta.ownerId (removeFun (toLowerCase name)) := by
        unfold removeCommandFromBot
        rw [hb₀]
      rw [hbots'] at he
      obtain ⟨e₀, he₀, heq⟩ := mem_mapAdjust he
      by_cases hk : e₀.1 = meta.ownerId
      · rw [if_pos hk] at heq
        rw [heq] at hmem
        exact (mem_removeFun.mp hmem).2 rfl
      · rw [if_neg hk] at heq
        rw [heq] at hmem
        obtain ⟨meta₁, hlk₁, ho₁⟩ := hbots e₀ he₀ _ hmem
        rw [hlk] at hlk₁
        injection hlk₁ with hlk₁
        apply hk
        rw [hlk₁]
        exact ho₁.symm
  · intro hlk
    exact deleteCommand_missing hlk

theorem c8_delete_removes_both_witness :
    ((deleteCommand pX mX "x").1 = true ∧
     mapLookup (deleteCommand pX mX "x").2.1.commands (toLowerCase "x") =
       none ∧
     ∀ e ∈ (deleteCommand pX mX "x").2.2.bots,
       (toLowerCase "x") ∉ e.2.commands) ∧
    deleteCommand pX mX "nope" = (false, pX, mX) :=
  ⟨(c8_delete_removes_both inv_pX_mX).1 metaX (by decide),
   (c8_delete_removes_both inv_pX_mX).2 (by decide)⟩

/-- C9: console execution is gated before the oracle is consulted: an
unknown token fails with `InvalidToken`, and a token whose bot's role is
neither `admin` nor `executor` fails with `PermissionDenied`, for every
command text and every execution oracle — the `false` flag records that
execution was never reached. -/
theorem c9_console_requires_privilege (m : BotManager)
    (e : String → Except String String) (c t : String) :
    (getBotByToken m t = none →
      runCommandAsConsole m e c t =
        (Except.error ConsoleError.invalidToken, false)) ∧
    (∀ b, getBotByToken m t = some b →
      b.role ≠ "admin" → b.role ≠ "executor" →
      runCommandAsConsole m e c t =
        (Except.error ConsoleError.permissionDenied, false)) := by
  constructor
  · intro h
    unfold runCommandAsConsole
    rw [h]
  · intro b hb h1 h2
    unfold runCommandAsConsole
    rw [hb]
    dsimp only
    rw [if_pos (And.intro (fun hor => hor.elim h1 h2) h1)]

def botC : Bot :=
  { id := "2", name := "Viewer", token := "tok2", role := "command_creator",
    webhook := none, commands := [], created_at := "t0" }

def mC : BotManager := { bots := [("1", botW), ("2", botC)], nextId := 3 }

def execOracle : String → Except String String := fun _ => Except.ok "ran"

theorem c9_console_requires_privilege_witness :
    runCommandAsConsole mC execOracle "ls" "tok2" =
      (Except.error ConsoleError.permissionDenied, false) ∧
    runCommandAsConsole mC execOracle "ls" "zzz" =
      (Except.error ConsoleError.invalidToken, false) :=
  ⟨(c9_console_requires_privilege mC execOracle "ls" "tok2").2 botC
      (by decide) (by decide) (by decide),
   (c9_console_requires_privilege mC execOracle "ls" "zzz").1 (by decide)⟩

/-- C10: `createCommand` only checks that the raw name is a non-empty
string before normalizing, so the name `/` passes the `InvalidName`
check, normalizes to the empty string, and is registered under the
empty-string key. -/
theorem c10_slash_only_name_registered {p : CommandProxy} {m : BotManager}
    {token : String} (d : String) (cb : Option String) (w : Bool)
    (now : String) {bot : Bot}
    (htok : getBotByToken m token = some bot)
    (hfree : mapLookup p.commands "" = none) :
    ∃ meta p' m',
      createCommand p m token "/" d cb w now = (Except.ok meta, p', m') ∧
      meta.command = "" ∧
      mapLookup p'.commands "" = some meta := by
  have hnorm : toLowerCase (stripSlashes "/") = "" := by decide
  refine ⟨mkMeta bot "/" d cb w now,
    { commands := mapSet p.commands (toLowerCase (stripSlashes "/"))
        (mkMeta bot "/" d cb w now) },
    (attachCommandToBot m bot.id (toLowerCase (stripSlashes "/"))).1,
    ?_, ?_, ?_⟩
  · unfold createCommand
    rw [htok]
    dsimp only
    have hd : ¬ ((mapLookup p.commands
        (toLowerCase (stripSlashes "/"))).isSome = true) := by
      rw [hnorm, hfree]
      simp
    rw [if_neg (by decide : ¬("/" : String) = ""), if_neg hd]
  · show toLowerCase (stripSlashes "/") = ""
    exact hnorm
  · show mapLookup (mapSet p.commands (toLowerCase (stripSlashes "/"))
      (mkMeta bot "/" d cb w now)) "" = _
    rw [hnorm, mapSet_of_lookup_none hfree]
    exact mapLookup_append_new hfree _

theorem c10_slash_only_name_registered_witness :
    ∃ meta p' m',
      createCommand pW mW "tok" "/" "" none false "t1" =
        (Except.ok meta, p', m') ∧
      meta.command = "" ∧
      mapLookup p'.commands "" = some meta :=
  c10_slash_only_name_registered "" none false "t1"
    (show getBotByToken mW "tok" = some botW by decide) (by decide)

end VynixC
